import Mathlib

/-!
# Verification of the order-status chatbot core

Shallow embedding of the repository `tmobile_order_status_bot_demo`
(modules `order_status_bot/orders.py`, `order_status_bot/llm.py`,
`order_status_bot/models.py`) together with proofs of the specification
claims about it.

Conventions of the embedding:
* Python dicts (`ORDERS`, `OVERRIDES`, tool argument payloads) are modelled
  as association lists with Python-dict semantics: lookup finds the first
  (unique) binding; assignment replaces in place or appends at the end.
* Python exceptions are modelled by `Except PyErr`; an uncaught exception
  is an `Except.error` result.  Mutations performed before an exception is
  raised stay in place, so state-changing functions return their store
  alongside the `Except` value.
* pydantic validation is modelled at the construction sites where the
  source constructs models from unchecked data (`Order` in the CSV loader,
  the `FindOrderInput`/`CancelOrderInput` payloads in the tool layer).
  `str` fields accept any string, including the empty string; `Literal`
  status fields accept exactly `processing`, `shipped`, `canceled`.
* Strings are Lean `String`s; `re.search(r"\b(\d+)\b", content)` is
  embedded as an explicit left-to-right scan over the character list, with
  the Python word-character class `\w` restricted to ASCII
  (letters, digits, underscore).
-/

/-- Python exceptions that the embedded code can raise:
`ValueError` (raised by the tool layer on invalid input),
pydantic `ValidationError` (raised by model construction), and
`AttributeError` (raised by attribute access on `None`). -/
inductive PyErr where
  | valueError (msg : String)
  | validationError
  | attributeError
deriving DecidableEq, Repr

/-- Embedding of `models.Order`: order_id, status, item.  The pydantic `Literal`
constraint on `status` is checked at construction sites via `validStatus`. -/
structure Order where
  order_id : String
  status : String
  item : String
deriving DecidableEq, Repr

/-- The set of statuses admitted by the pydantic `Literal` annotation on
`Order.status`. -/
def validStatus (st : String) : Bool :=
  st == "processing" || st == "shipped" || st == "canceled"

/-- Embedding of `models.Message`: role, content, optional tool name. -/
structure Message where
  role : String
  content : String
  tool_name : Option String
deriving DecidableEq, Repr

/-- Embedding of `models.FindOrderResult`. -/
structure FindOrderResult where
  found : Bool
  order : Option Order
deriving DecidableEq, Repr

/-- Embedding of `models.CancelOrderResult`.  `reason` is `None` on success. -/
structure CancelOrderResult where
  ok : Bool
  reason : Option String
  order : Option Order
deriving DecidableEq, Repr

/-- Python-dict assignment `d[k] = v` on an association list: replaces the
binding in place if the key is present, otherwise appends at the end. -/
def dictInsert (d : List (String × α)) (k : String) (v : α) :
    List (String × α) :=
  match d with
  | [] => [(k, v)]
  | (k', v') :: rest =>
    if k' == k then (k, v) :: rest else (k', v') :: dictInsert rest k v

/-- The mutable module state of `orders.py`: the `ORDERS` dict of base
records and the `OVERRIDES` dict of status overrides. -/
structure Store where
  ORDERS : List (String × Order)
  OVERRIDES : List (String × String)
deriving DecidableEq, Repr

/-- Embedding of `orders.get_order`: look up the base record and apply any override. -/
def get_order (s : Store) (order_id : String) : Option Order :=
  match s.ORDERS.lookup order_id with
  | none => none
  | some order =>
    match s.OVERRIDES.lookup order_id with
    | some override =>
      some { order_id := order_id, status := override, item := order.item }
    | none => some order

/-- Embedding of `orders.cancel_order`: returns the result together with the store after
the call (the store is unchanged except on the success path, which records
an override). -/
def cancel_order (s : Store) (order_id : String) : CancelOrderResult × Store :=
  match get_order s order_id with
  | none => ({ ok := false, reason := some "not_found", order := none }, s)
  | some order =>
    if order.status == "shipped" || order.status == "canceled" then
      ({ ok := false, reason := some "immutable_status", order := some order }, s)
    else
      ({ ok := true, reason := none,
         order := some { order_id := order_id, status := "canceled",
                         item := order.item } },
       { s with OVERRIDES := dictInsert s.OVERRIDES order_id "canceled" })

/-- One CSV row as produced by `csv.DictReader.get`: each of the three
fields is absent (`none`) or a string (possibly empty). -/
structure Row where
  order_id : Option String
  status : Option String
  item : Option String
deriving DecidableEq, Repr

/-- Python truthiness of `row.get(field)`: `None` and the empty string are
falsy; a non-empty string passes through. -/
def truthy : Option String → Option String
  | none => none
  | some v => if v == "" then none else some v

/-- pydantic construction `Order(order_id=..., status=..., item=...)`:
raises `ValidationError` unless the status is one of the three literals. -/
def mkOrder (oid st it : String) : Except PyErr Order :=
  if validStatus st then
    .ok { order_id := oid, status := st, item := it }
  else .error .validationError

/-- The row loop of `orders._load_orders` over the parsed CSV rows,
starting from accumulator `acc` (the `ORDERS` dict built so far). -/
def loadAux (acc : List (String × Order)) :
    List Row → Except PyErr (List (String × Order))
  | [] => .ok acc
  | row :: rest =>
    match truthy row.order_id, truthy row.status, truthy row.item with
    | some oid, some st, some it =>
      match mkOrder oid st it with
      | .error e => .error e
      | .ok order =>
        if (acc.lookup oid).isSome then loadAux acc rest
        else loadAux (acc ++ [(oid, order)]) rest
    | _, _, _ => loadAux acc rest

/-- Embedding of `orders._load_orders`: populate the `ORDERS` dict from the CSV rows
(after `ORDERS.clear()`, so starting from the empty dict). -/
def load_orders (rows : List Row) : Except PyErr (List (String × Order)) :=
  loadAux [] rows

/-- Well-formed store: every base record is keyed by its own `order_id` and
carries a status admitted by the pydantic `Literal`, and every override
value is an admitted status.  This holds for every store reachable from
the CSV loader and the cancel operation. -/
def WFStore (s : Store) : Prop :=
  (∀ p ∈ s.ORDERS, p.2.order_id = p.1 ∧ validStatus p.2.status = true) ∧
  (∀ p ∈ s.OVERRIDES, validStatus p.2 = true)

/-! ## Tool layer (`llm.py`) -/

/-- A tool argument payload: a JSON object with string values, as the
engine or the fallback passes it to a tool callable. -/
abbrev ArgsDict := List (String × String)

/-- Embedding of `llm.find_order_tool`: validates that the payload has an `order_id`
field (pydantic `FindOrderInput`; any string value, including the empty
string, is accepted), then wraps `get_order`.  Read-only. -/
def find_order_tool (s : Store) (args : ArgsDict) :
    Except PyErr FindOrderResult :=
  match args.lookup "order_id" with
  | none => .error (.valueError "Invalid input for find_order")
  | some oid =>
    match get_order s oid with
    | some order => .ok { found := true, order := some order }
    | none => .ok { found := false, order := none }

/-- Embedding of `llm.cancel_order_tool`: validates that the payload has an `order_id`
field (pydantic `CancelOrderInput`), then delegates to `cancel_order`.
Returns the store after the call (unchanged when validation fails). -/
def cancel_order_tool (s : Store) (args : ArgsDict) :
    Except PyErr CancelOrderResult × Store :=
  match args.lookup "order_id" with
  | none => (.error (.valueError "Invalid input for cancel_order"), s)
  | some oid =>
    match cancel_order s oid with
    | (result, s') => (.ok result, s')

/-! ## Digit extraction (`re.search(r"\b(\d+)\b", content)`) -/

/-- Python regex word character `\w`, restricted to ASCII: letters, digits
and the underscore. -/
def isWordChar (c : Char) : Bool := c.isAlphanum || c == '_'

/-- Split a character list into its maximal leading digit run and the
rest. -/
def splitDigits : List Char → List Char × List Char
  | [] => ([], [])
  | c :: cs =>
    if c.isDigit then
      ((splitDigits cs).1.cons c, (splitDigits cs).2)
    else ([], c :: cs)

/-- Does a word boundary `\b` hold between the previous character (`none`
at the start of the string) and a following word character? -/
def prevBoundary : Option Char → Bool
  | none => true
  | some p => !isWordChar p

/-- Attempt to match `\b(\d+)\b` at the current position: `prev` is the
character before the position.  Returns the captured digit run on
success. -/
def boundedRunAt (prev : Option Char) : List Char → Option (List Char)
  | [] => none
  | c :: cs =>
    if prevBoundary prev && c.isDigit then
      match (splitDigits cs).2.head? with
      | none => some (c :: (splitDigits cs).1)
      | some c2 =>
        if isWordChar c2 then none else some (c :: (splitDigits cs).1)
    else none

/-- Embedding of `re.search`: try `\b(\d+)\b` at each position from left to right,
returning the first (leftmost) match. -/
def searchDigits : Option Char → List Char → Option (List Char)
  | _, [] => none
  | prev, c :: cs =>
    match boundedRunAt prev (c :: cs) with
    | some run => some run
    | none => searchDigits (some c) cs

/-- Lines 201-202 of `llm.py`: the candidate order id extracted from the
(already lower-cased) content, or `none` when the regex does not match. -/
def extractOrderId (content : String) : Option String :=
  (searchDigits none content.toList).map List.asString

/-- Python substring test `pat in l`, on character lists. -/
def containsSub (l pat : List Char) : Bool :=
  match l with
  | [] => pat.isEmpty
  | _ :: rest => pat.isPrefixOf l || containsSub rest pat

/-- Python `str.lower()` on the content (ASCII case mapping), written as
a structural map over the character list so that it evaluates by kernel
reduction. -/
def strToLower (s : String) : String :=
  (s.toList.map Char.toLower).asString

/-! ## Turn handling (`llm.py`) -/

/-- A structured tool result attached to a turn outcome
(`result.model_dump()` in the source), tagged by which tool produced it. -/
inductive ToolResult where
  | find (r : FindOrderResult)
  | cancel (r : CancelOrderResult)
deriving DecidableEq, Repr

/-- The state a turn operates on: the conversation history handed to
`chat_turn` and the `orders.py` module state.  The history is threaded
through so that theorems can state that it is never modified. -/
structure TurnState where
  messages : List Message
  store : Store
deriving DecidableEq, Repr

/-- Embedding of `llm._fallback_chat_turn`: the deterministic fallback decision
procedure.  Returns the assistant message and optional structured tool
result (or the uncaught Python exception), together with the state after
the call. -/
def fallback_chat_turn (st : TurnState) :
    Except PyErr (Message × Option ToolResult) × TurnState :=
  match st.messages.getLast? with
  | none =>
    (.ok ({ role := "assistant", content := "Hello! What can I help you with?",
            tool_name := none }, none), st)
  | some last_message =>
    if last_message.role != "user" then
      (.ok ({ role := "assistant", content := "Awaiting your instructions.",
              tool_name := none }, none), st)
    else
      let content := strToLower last_message.content
      match extractOrderId content with
      | none =>
        (.ok ({ role := "assistant", content := "Please provide an order ID.",
                tool_name := none }, none), st)
      | some order_id =>
        if containsSub content.toList "cancel".toList then
          match cancel_order_tool st.store [("order_id", order_id)] with
          | (.error e, s') => (.error e, { st with store := s' })
          | (.ok result, s') =>
            if result.ok then
              (.ok ({ role := "assistant",
                      content := "Order " ++ order_id ++
                        " has been canceled successfully.",
                      tool_name := none }, some (.cancel result)),
               { st with store := s' })
            else if result.reason == some "not_found" then
              (.ok ({ role := "assistant",
                      content := "I couldn\x27t find an order with ID " ++
                        order_id ++ ".",
                      tool_name := none }, some (.cancel result)),
               { st with store := s' })
            else
              match result.order with
              | none => (.error .attributeError, { st with store := s' })
              | some o =>
                (.ok ({ role := "assistant",
                        content := "Order " ++ order_id ++
                          " cannot be canceled because it is " ++
                          o.status ++ ".",
                        tool_name := none }, some (.cancel result)),
                 { st with store := s' })
        else
          match find_order_tool st.store [("order_id", order_id)] with
          | .error e => (.error e, st)
          | .ok result =>
            if result.found then
              match result.order with
              | none => (.error .attributeError, st)
              | some o =>
                (.ok ({ role := "assistant",
                        content := "Order " ++ order_id ++
                          " is currently " ++ o.status ++ ".",
                        tool_name := none }, some (.find result)), st)
            else
              (.ok ({ role := "assistant",
                      content := "I couldn\x27t find an order with ID " ++
                        order_id ++ ".",
                      tool_name := none }, some (.find result)), st)

/-- A message in the wire format sent to the reasoning engine
(`openai_messages` in the source): role, content, and the tool name for
tool-role messages. -/
structure OpenAIMessage where
  role : String
  content : String
  name : Option String
deriving DecidableEq, Repr

/-- Embedding of `llm._system_prompt`. -/
def system_prompt : String :=
  "You are an order assistant. Use the available tools to look up or cancel " ++
  "orders. Never invent order data. If the user requests to cancel an order " ++
  "that is already shipped or canceled, explain that the order cannot be canceled."

/-- The per-message conversion loop of `chat_turn` (lines 123-134). -/
def to_openai_message (m : Message) : OpenAIMessage :=
  if m.role == "tool" then
    { role := "tool", content := m.content, name := m.tool_name }
  else
    { role := m.role, content := m.content, name := none }

/-- A requested function call in an engine response.  `arguments` is the
outcome of `json.loads` on the argument string supplied by the engine:
`Except.error` models a `JSONDecodeError`, `Except.ok` the parsed JSON
object (with string values, as the tool schemas declare). -/
structure FunctionCallData where
  name : String
  arguments : Except Unit ArgsDict
deriving Repr

/-- An engine response: either a direct reply (`finish_reason` other than
`function_call`) or a requested function call. -/
inductive EngineResponse where
  | direct (content : String)
  | functionCall (fc : FunctionCallData)

/-- The external reasoning engine, as an opaque capability: its response
to the initial request and the final content it produces in the follow-up
request after a tool message is appended. -/
structure Engine where
  first : List OpenAIMessage → EngineResponse
  followup : List OpenAIMessage → String

/-- Serialization of an `Order` (pydantic `.json()` of the nested model). -/
def orderJson (o : Order) : String :=
  "\x7b\"order_id\": \"" ++ o.order_id ++ "\", \"status\": \"" ++ o.status ++
  "\", \"item\": \"" ++ o.item ++ "\"\x7d"

/-- Serialization `FindOrderResult.json()`. -/
def findResultJson (r : FindOrderResult) : String :=
  "\x7b\"found\": " ++ (if r.found then "true" else "false") ++ ", \"order\": " ++
  (match r.order with | none => "null" | some o => orderJson o) ++ "\x7d"

/-- Serialization `CancelOrderResult.json()`. -/
def cancelResultJson (r : CancelOrderResult) : String :=
  "\x7b\"ok\": " ++ (if r.ok then "true" else "false") ++ ", \"reason\": " ++
  (match r.reason with | none => "null" | some m => "\"" ++ m ++ "\"") ++
  ", \"order\": " ++
  (match r.order with | none => "null" | some o => orderJson o) ++ "\x7d"

/-- The outgoing context built by `chat_turn` (lines 123-137): the system
directive followed by the converted history. -/
def openai_context (st : TurnState) : List OpenAIMessage :=
  { role := "system", content := system_prompt, name := none } ::
    st.messages.map to_openai_message

/-- The engine-backed branch of `llm.chat_turn` (lines 121-181), with the
engine responses supplied by the opaque `Engine` capability. -/
def chat_turn_engine (eng : Engine) (st : TurnState) :
    Except PyErr (Message × Option ToolResult) × TurnState :=
  let openai_messages := openai_context st
  match eng.first openai_messages with
  | .direct content =>
    (.ok ({ role := "assistant", content := content, tool_name := none },
          none), st)
  | .functionCall fc =>
    match fc.arguments with
    | .error _ =>
      (.ok ({ role := "assistant",
              content := "Sorry, I couldn\x27t parse the tool arguments.",
              tool_name := none }, none), st)
    | .ok args_dict =>
      if fc.name == "find_order" then
        match find_order_tool st.store args_dict with
        | .error e => (.error e, st)
        | .ok result =>
          let followup_messages := openai_messages ++
            [{ role := "tool", content := findResultJson result,
               name := some fc.name }]
          (.ok ({ role := "assistant",
                  content := eng.followup followup_messages,
                  tool_name := none }, some (.find result)), st)
      else if fc.name == "cancel_order" then
        match cancel_order_tool st.store args_dict with
        | (.error e, s') => (.error e, { st with store := s' })
        | (.ok result, s') =>
          let followup_messages := openai_messages ++
            [{ role := "tool", content := cancelResultJson result,
               name := some fc.name }]
          (.ok ({ role := "assistant",
                  content := eng.followup followup_messages,
                  tool_name := none }, some (.cancel result)),
           { st with store := s' })
      else
        (.ok ({ role := "assistant",
                content := "Unknown tool " ++ fc.name ++ ".",
                tool_name := none }, none), st)

/-- Embedding of `llm.chat_turn`: delegates to the engine-backed two-phase protocol if
an engine is configured (API key and client both present), otherwise to
the fallback decision procedure. -/
def chat_turn (engine : Option Engine) (st : TurnState) :
    Except PyErr (Message × Option ToolResult) × TurnState :=
  match engine with
  | none => fallback_chat_turn st
  | some eng => chat_turn_engine eng st

/-- Right word boundary: the first character after the run, if any, is not
a word character. -/
def RightB (post : List Char) : Prop :=
  ∀ c, post.head? = some c → isWordChar c = false

/-- The character immediately before the current position, given the
character before the whole suffix (`prev`) and the prefix already
consumed (`pre`). -/
def lastOr (prev : Option Char) (pre : List Char) : Option Char :=
  match pre with
  | [] => prev
  | c :: rest => lastOr (some c) rest

/-- Predicate: `\b(\d+)\b` matches within `l` (whose preceding character is `prev`)
with prefix `pre`, captured run `run`, and remainder `post`. -/
def MatchFrom (prev : Option Char) (l pre run post : List Char) : Prop :=
  l = pre ++ run ++ post ∧ run ≠ [] ∧ (∀ c ∈ run, c.isDigit = true) ∧
  prevBoundary (lastOr prev pre) = true ∧ RightB post

/-- A word-bounded digit token in `content`, in the words of the spec: a
non-empty run of digits preceded by nothing or a non-word character and
followed by nothing or a non-word character. -/
def TokenSplit (content : String) (pre run post : List Char) : Prop :=
  content.toList = pre ++ run ++ post ∧ run ≠ [] ∧
  (∀ c ∈ run, c.isDigit = true) ∧
  (∀ c, pre.getLast? = some c → isWordChar c = false) ∧
  (∀ c, post.head? = some c → isWordChar c = false)

/-! ## Loader lemmas -/

/-- The three fields of a row when the row passes the completeness check of
`_load_orders` (all present and non-empty). -/
def rowFields (row : Row) : Option (String × String × String) :=
  match truthy row.order_id, truthy row.status, truthy row.item with
  | some a, some b, some c => some (a, b, c)
  | _, _, _ => none

/-- The `(status, item)` of the first complete row carrying the given
order id. -/
def firstRowFor : List Row → String → Option (String × String)
  | [], _ => none
  | row :: rest, oid =>
    match rowFields row with
    | some (a, b, c) => if a == oid then some (b, c) else firstRowFor rest oid
    | none => firstRowFor rest oid

/-- A row is harmless to the loader: either incomplete (skipped) or its
status passes the pydantic `Literal` validation. -/
def rowOk (row : Row) : Bool :=
  match rowFields row with
  | some (_, b, _) => validStatus b
  | none => true

/-! ## The order store as a state machine -/

/-- The operations the order store exposes (spec section 6: `get` and
`cancel` are the sole entry points for order-state queries/mutations). -/
inductive StoreOp where
  | getOp (oid : String)
  | cancelOp (oid : String)
deriving DecidableEq, Repr

/-- The store after one operation (`get_order` reads only). -/
def applyOp (s : Store) : StoreOp → Store
  | .getOp _ => s
  | .cancelOp oid => (cancel_order s oid).2

/-- The store after a sequence of operations. -/
def runOps (s : Store) : List StoreOp → Store
  | [] => s
  | op :: ops => runOps (applyOp s op) ops

/-- Every override value is the literal status `canceled`. -/
def OverridesCanceled (s : Store) : Prop :=
  ∀ p ∈ s.OVERRIDES, p.2 = "canceled"

/-! ## Concrete fixtures -/

/-- The two orders the repository tests rely on: `12345` shipped,
`23456` processing. -/
def demoStore : Store :=
  { ORDERS :=
      [("12345", { order_id := "12345", status := "shipped", item := "widget" }),
       ("23456", { order_id := "23456", status := "processing", item := "gadget" })],
    OVERRIDES := [] }

/-- A store with no orders at all. -/
def emptyStore : Store := { ORDERS := [], OVERRIDES := [] }

/-- State of `demoStore` after order `12345` has been canceled by override. -/
def ovStore : Store :=
  { ORDERS := demoStore.ORDERS, OVERRIDES := [("12345", "canceled")] }

/-- A turn state with no messages over the empty store. -/
def emptyTurnState : TurnState := { messages := [], store := emptyStore }

/-- A turn whose last user message asks to cancel order 23456. -/
def cancelTurnState : TurnState :=
  { messages := [{ role := "user", content := "Please cancel order 23456",
                   tool_name := none }],
    store := demoStore }

/-- An engine that requests `find_order` with a well-formed JSON payload
that lacks the `order_id` field. -/
def engMissingField : Engine :=
  { first := fun _ => .functionCall { name := "find_order", arguments := .ok [] },
    followup := fun _ => "" }

/-- An engine whose tool-call arguments fail JSON parsing. -/
def engBadJson : Engine :=
  { first := fun _ =>
      .functionCall { name := "cancel_order", arguments := .error () },
    followup := fun _ => "" }

/-- Loader rows: a valid row for id 1, an incomplete row, and a duplicate
row for id 1. -/
def demoRows : List Row :=
  [{ order_id := some "1", status := some "shipped", item := some "x" },
   { order_id := none, status := some "processing", item := some "y" },
   { order_id := some "1", status := some "processing", item := some "z" }]

/-! ## Dictionary lemmas -/

theorem lookup_dictInsert_self (d : List (String × α)) (k : String) (v : α) :
    (dictInsert d k v).lookup k = some v := by
  induction d with
  | nil => simp [dictInsert]
  | cons p rest ih =>
    obtain ⟨k', v'⟩ := p
    by_cases h : k' = k
    · subst h
      simp [dictInsert]
    · have hne : (k == k') = false := by
        simp [beq_eq_false_iff_ne]
        exact fun hk => h hk.symm
      simp [dictInsert, h, List.lookup_cons, hne, ih]

theorem lookup_dictInsert_ne (d : List (String × α)) (k k' : String) (v : α)
    (h : k' ≠ k) :
    (dictInsert d k v).lookup k' = d.lookup k' := by
  have hne : (k' == k) = false := by simp [beq_eq_false_iff_ne, h]
  induction d with
  | nil => simp [dictInsert, List.lookup_cons, hne]
  | cons p rest ih =>
    obtain ⟨k₀, v₀⟩ := p
    by_cases hk : k₀ = k
    · subst hk
      simp [dictInsert, List.lookup_cons, hne]
    · cases hh : (k' == k₀) <;>
        simp [dictInsert, hk, List.lookup_cons, hh, ih]

theorem mem_dictInsert (d : List (String × α)) (k : String) (v : α) :
    ∀ p ∈ dictInsert d k v, p = (k, v) ∨ p ∈ d := by
  induction d with
  | nil => simp [dictInsert]
  | cons q rest ih =>
    obtain ⟨k₀, v₀⟩ := q
    intro p hp
    by_cases hk : k₀ = k
    · subst hk
      simp [dictInsert] at hp
      rcases hp with h | h
      · exact Or.inl (by simp [h])
      · exact Or.inr (by simp [h])
    · simp [dictInsert, hk] at hp
      rcases hp with h | h
      · exact Or.inr (by simp [h])
      · rcases ih p h with h' | h'
        · exact Or.inl h'
        · exact Or.inr (by simp [h'])

/-! ## Lemmas about the digit-run scanner -/

theorem splitDigits_append (l : List Char) :
    (splitDigits l).1 ++ (splitDigits l).2 = l := by
  induction l with
  | nil => simp [splitDigits]
  | cons c cs ih =>
    by_cases h : c.isDigit <;> simp [splitDigits, h, ih]

theorem splitDigits_digits (l : List Char) :
    ∀ c ∈ (splitDigits l).1, c.isDigit = true := by
  induction l with
  | nil => simp [splitDigits]
  | cons c cs ih =>
    by_cases h : c.isDigit <;> simp [splitDigits, h]
    exact ih

theorem splitDigits_head (l : List Char) :
    ∀ c, (splitDigits l).2.head? = some c → c.isDigit = false := by
  induction l with
  | nil => simp [splitDigits]
  | cons c cs ih =>
    by_cases h : c.isDigit
    · simpa [splitDigits, h] using ih
    · intro c' hc'
      simp [splitDigits, h] at hc'
      rw [← hc']
      simpa using h

theorem splitDigits_eq (run post : List Char)
    (hd : ∀ c ∈ run, c.isDigit = true)
    (hp : ∀ c, post.head? = some c → c.isDigit = false) :
    splitDigits (run ++ post) = (run, post) := by
  induction run with
  | nil =>
    cases post with
    | nil => rfl
    | cons c cs =>
      have hc : c.isDigit = false := hp c rfl
      simp [splitDigits, hc]
  | cons c run' ih =>
    have hc : c.isDigit = true := hd c (by simp)
    have h' := ih (fun c h => hd c (by simp [h]))
    simp [splitDigits, hc, h']

theorem isWordChar_of_isDigit {c : Char} (h : c.isDigit = true) :
    isWordChar c = true := by
  simp [isWordChar, Char.isAlphanum, h]

theorem lastOr_eq (prev : Option Char) (pre : List Char) :
    lastOr prev pre = pre.getLast?.or prev := by
  induction pre generalizing prev with
  | nil => simp [lastOr]
  | cons c rest ih =>
    cases rest with
    | nil => simp [lastOr]
    | cons c₁ rest₁ =>
      rw [List.getLast?_cons_cons]
      simpa [lastOr] using ih (some c)

theorem rightB_head_not_digit {post : List Char} (hr : RightB post) :
    ∀ c, post.head? = some c → c.isDigit = false := by
  intro c h
  cases hd : c.isDigit with
  | false => rfl
  | true =>
    have hw := isWordChar_of_isDigit hd
    rw [hr c h] at hw
    exact Bool.noConfusion hw

theorem boundedRunAt_eq_some_iff (prev : Option Char) (l run : List Char) :
    boundedRunAt prev l = some run ↔ ∃ post, MatchFrom prev l [] run post := by
  constructor
  · intro h
    cases l with
    | nil => simp [boundedRunAt] at h
    | cons c cs =>
      cases hp : prevBoundary prev with
      | false => simp [boundedRunAt, hp] at h
      | true =>
      cases hd : c.isDigit with
      | false => simp [boundedRunAt, hp, hd] at h
      | true =>
      have hshape : run = c :: (splitDigits cs).1 ∧ RightB (splitDigits cs).2 := by
        cases hh : (splitDigits cs).2.head? with
        | none =>
          simp only [boundedRunAt, hp, hd, hh, Bool.and_self, if_true,
            Option.some.injEq] at h
          refine ⟨h.symm, fun c2 hc2 => ?_⟩
          rw [hh] at hc2
          exact Option.noConfusion hc2
        | some c2 =>
          cases hw : isWordChar c2 with
          | true => simp [boundedRunAt, hp, hd, hh, hw] at h
          | false =>
            simp only [boundedRunAt, hp, hd, hh, hw, Bool.and_self, if_true,
              Bool.false_eq_true, if_false, Option.some.injEq] at h
            refine ⟨h.symm, fun c3 hc3 => ?_⟩
            rw [hh] at hc3
            injection hc3 with hc3
            rw [← hc3]
            exact hw
      obtain ⟨hrun, hr⟩ := hshape
      subst hrun
      refine ⟨(splitDigits cs).2, ?_, by simp, ?_, ?_, hr⟩
      · simp [splitDigits_append]
      · intro c' hc'
        rcases List.mem_cons.mp hc' with h' | h'
        · rw [h']; exact hd
        · exact splitDigits_digits cs c' h'
      · simpa [lastOr] using hp
  · intro hx
    obtain ⟨post, hm⟩ := hx
    simp only [MatchFrom] at hm
    obtain ⟨heq, hne, hdig, hprev, hr⟩ := hm
    cases run with
    | nil => exact absurd rfl hne
    | cons c run₀ =>
      have hsplit : splitDigits (run₀ ++ post) = (run₀, post) :=
        splitDigits_eq run₀ post (fun c' h' => hdig c' (by simp [h']))
          (rightB_head_not_digit hr)
      have hc : c.isDigit = true := hdig c (by simp)
      have hprev' : prevBoundary prev = true := by simpa [lastOr] using hprev
      have hl : l = c :: (run₀ ++ post) := by simpa using heq
      rw [hl]
      cases hh : post.head? with
      | none => simp [boundedRunAt, hprev', hc, hsplit, hh]
      | some c2 =>
        have hw : isWordChar c2 = false := hr c2 hh
        simp [boundedRunAt, hprev', hc, hsplit, hh, hw]

theorem matchFrom_cons {prev : Option Char} {c : Char} {cs pre run post : List Char}
    (hm : MatchFrom prev (c :: cs) (c :: pre) run post) :
    MatchFrom (some c) cs pre run post := by
  obtain ⟨heq, hne, hdig, hprev, hr⟩ := hm
  exact ⟨by simpa using heq, hne, hdig, by simpa [lastOr] using hprev, hr⟩

theorem matchFrom_cons_of {prev : Option Char} {c : Char} {cs pre run post : List Char}
    (hm : MatchFrom (some c) cs pre run post) :
    MatchFrom prev (c :: cs) (c :: pre) run post := by
  obtain ⟨heq, hne, hdig, hprev, hr⟩ := hm
  exact ⟨by simpa using heq, hne, hdig, by simpa [lastOr] using hprev, hr⟩

theorem matchFrom_head_eq {prev : Option Char} {c : Char}
    {cs pre run post : List Char} (hne : pre ≠ [])
    (hm : MatchFrom prev (c :: cs) pre run post) :
    ∃ pre₂, pre = c :: pre₂ := by
  obtain ⟨heq, _, _, _, _⟩ := hm
  cases pre with
  | nil => exact absurd rfl hne
  | cons c₀ pre₂ =>
    refine ⟨pre₂, ?_⟩
    have : c = c₀ := by simpa using congrArg List.head? heq
    rw [this]

theorem searchDigits_complete (l : List Char) :
    ∀ prev pre run post, MatchFrom prev l pre run post →
      (searchDigits prev l).isSome = true := by
  induction l with
  | nil =>
    intro prev pre run post hm
    obtain ⟨heq, hne, _, _, _⟩ := hm
    exfalso
    cases run with
    | nil => exact hne rfl
    | cons r rs => cases pre <;> simp at heq
  | cons c cs ih =>
    intro prev pre run post hm
    cases hb : boundedRunAt prev (c :: cs) with
    | some r => simp [searchDigits, hb]
    | none =>
      cases hpre : pre with
      | nil =>
        exfalso
        rw [hpre] at hm
        have := (boundedRunAt_eq_some_iff prev (c :: cs) run).mpr ⟨post, hm⟩
        rw [hb] at this
        exact Option.noConfusion this
      | cons c₀ pre₂ =>
        rw [hpre] at hm
        obtain ⟨pre₃, hpre₃⟩ := matchFrom_head_eq (by simp) hm
        rw [hpre₃] at hm
        have := ih (some c) pre₃ run post (matchFrom_cons hm)
        simpa [searchDigits, hb] using this

theorem searchDigits_sound (l : List Char) :
    ∀ prev run, searchDigits prev l = some run →
      ∃ pre post, MatchFrom prev l pre run post ∧
        ∀ pre' run' post', MatchFrom prev l pre' run' post' →
          pre.length ≤ pre'.length := by
  induction l with
  | nil => intro prev run h; simp [searchDigits] at h
  | cons c cs ih =>
    intro prev run h
    cases hb : boundedRunAt prev (c :: cs) with
    | some r =>
      rw [searchDigits, hb] at h
      injection h with h
      rw [h] at hb
      obtain ⟨post, hm⟩ := (boundedRunAt_eq_some_iff prev (c :: cs) run).mp hb
      exact ⟨[], post, hm, fun pre' run' post' _ => Nat.zero_le _⟩
    | none =>
      rw [searchDigits, hb] at h
      obtain ⟨pre₂, post, hm, hmin⟩ := ih (some c) run h
      refine ⟨c :: pre₂, post, matchFrom_cons_of hm, ?_⟩
      intro pre' run' post' hm'
      cases hpre' : pre' with
      | nil =>
        exfalso
        rw [hpre'] at hm'
        have := (boundedRunAt_eq_some_iff prev (c :: cs) run').mpr ⟨post', hm'⟩
        rw [hb] at this
        exact Option.noConfusion this
      | cons c₀ pre₂' =>
        rw [hpre'] at hm'
        obtain ⟨pre₃, hpre₃⟩ := matchFrom_head_eq (by simp) hm'
        rw [hpre₃] at hm'
        have := hmin pre₃ run' post' (matchFrom_cons hm')
        simp [hpre₃]
        exact this

theorem searchDigits_eq_some_iff (prev : Option Char) (l run : List Char) :
    searchDigits prev l = some run ↔
      ∃ pre post, MatchFrom prev l pre run post ∧
        ∀ pre' run' post', MatchFrom prev l pre' run' post' →
          pre.length ≤ pre'.length := by
  constructor
  · exact searchDigits_sound l prev run
  · intro hx
    obtain ⟨pre, post, hm, hmin⟩ := hx
    have hsome := searchDigits_complete l prev pre run post hm
    obtain ⟨run₂, h₂⟩ := Option.isSome_iff_exists.mp hsome
    obtain ⟨pre₂, post₂, hm₂, hmin₂⟩ := searchDigits_sound l prev run₂ h₂
    have hlen : pre₂.length = pre.length :=
      Nat.le_antisymm (hmin₂ pre run post hm) (hmin pre₂ run₂ post₂ hm₂)
    obtain ⟨heq, hne, hdig, hprev, hr⟩ := hm
    obtain ⟨heq₂, hne₂, hdig₂, hprev₂, hr₂⟩ := hm₂
    have happ : pre₂ ++ (run₂ ++ post₂) = pre ++ (run ++ post) := by
      rw [← List.append_assoc, ← List.append_assoc, ← heq₂, ← heq]
    obtain ⟨hpre_eq, hrest⟩ := List.append_inj happ hlen
    have hs₂ : splitDigits (run₂ ++ post₂) = (run₂, post₂) :=
      splitDigits_eq run₂ post₂ (fun c h => hdig₂ c h)
        (rightB_head_not_digit hr₂)
    have hs : splitDigits (run ++ post) = (run, post) :=
      splitDigits_eq run post (fun c h => hdig c h)
        (rightB_head_not_digit hr)
    rw [hrest] at hs₂
    rw [hs] at hs₂
    have : run₂ = run := by
      have := congrArg Prod.fst hs₂
      exact this.symm
    rw [← this]
    exact h₂

theorem searchDigits_eq_none_iff (prev : Option Char) (l : List Char) :
    searchDigits prev l = none ↔
      ∀ pre run post, ¬ MatchFrom prev l pre run post := by
  constructor
  · intro h pre run post hm
    have := searchDigits_complete l prev pre run post hm
    rw [h] at this
    simp at this
  · intro h
    cases hs : searchDigits prev l with
    | none => rfl
    | some run =>
      obtain ⟨pre, post, hm, _⟩ := searchDigits_sound l prev run hs
      exact absurd hm (h pre run post)

theorem tokenSplit_iff_matchFrom (content : String) (pre run post : List Char) :
    TokenSplit content pre run post ↔
      MatchFrom none content.toList pre run post := by
  simp only [TokenSplit, MatchFrom, RightB, lastOr_eq]
  cases h : pre.getLast? with
  | none => simp [h, prevBoundary]
  | some c =>
    simp only [h, Option.or_some, prevBoundary, Bool.not_eq_true',
      Option.some.injEq]
    constructor
    · rintro ⟨h1, h2, h3, h4, h5⟩
      exact ⟨h1, h2, h3, h4 c rfl, h5⟩
    · rintro ⟨h1, h2, h3, h4, h5⟩
      exact ⟨h1, h2, h3, fun c' hc' => hc' ▸ h4, h5⟩

theorem asString_eq_iff (l : List Char) (s : String) :
    l.asString = s ↔ l = s.toList := by
  constructor
  · intro h
    rw [← h]
    rfl
  · intro h
    rw [h]
    rfl

/-- The candidate order id returned by the fallback extraction is exactly
the leftmost word-bounded digit token of the content. -/
theorem extractOrderId_eq_some_iff (content id : String) :
    extractOrderId content = some id ↔
      ∃ pre post, TokenSplit content pre id.toList post ∧
        ∀ pre' run' post', TokenSplit content pre' run' post' →
          pre.length ≤ pre'.length := by
  unfold extractOrderId
  rw [Option.map_eq_some']
  constructor
  · intro hx
    obtain ⟨l, hl, hs⟩ := hx
    rw [asString_eq_iff] at hs
    rw [hs] at hl
    obtain ⟨pre, post, hm, hmin⟩ :=
      (searchDigits_eq_some_iff none content.toList id.toList).mp hl
    refine ⟨pre, post, (tokenSplit_iff_matchFrom content pre id.toList post).mpr hm, ?_⟩
    intro pre' run' post' ht'
    exact hmin pre' run' post'
      ((tokenSplit_iff_matchFrom content pre' run' post').mp ht')
  · intro hx
    obtain ⟨pre, post, ht, hmin⟩ := hx
    refine ⟨id.toList, ?_, by rw [asString_eq_iff]⟩
    apply (searchDigits_eq_some_iff none content.toList id.toList).mpr
    refine ⟨pre, post, (tokenSplit_iff_matchFrom content pre id.toList post).mp ht, ?_⟩
    intro pre' run' post' hm'
    exact hmin pre' run' post'
      ((tokenSplit_iff_matchFrom content pre' run' post').mpr hm')

/-- The extraction returns `none` exactly when the content has no
word-bounded digit token at all. -/
theorem extractOrderId_eq_none_iff (content : String) :
    extractOrderId content = none ↔
      ∀ pre run post, ¬ TokenSplit content pre run post := by
  unfold extractOrderId
  rw [Option.map_eq_none', searchDigits_eq_none_iff]
  constructor
  · intro h pre run post ht
    exact h pre run post ((tokenSplit_iff_matchFrom content pre run post).mp ht)
  · intro h pre run post hm
    exact h pre run post ((tokenSplit_iff_matchFrom content pre run post).mpr hm)

/-- Any extracted candidate id is a non-empty string of digits. -/
theorem extractOrderId_digits (content id : String) :
    extractOrderId content = some id →
      id.toList ≠ [] ∧ ∀ c ∈ id.toList, c.isDigit = true := by
  intro h
  obtain ⟨pre, post, ht, _⟩ := (extractOrderId_eq_some_iff content id).mp h
  exact ⟨ht.2.1, ht.2.2.1⟩

/-- Characterization of the Python substring test `containsSub`. -/
theorem containsSub_iff (l pat : List Char) :
    containsSub l pat = true ↔ ∃ a b, l = a ++ (pat ++ b) := by
  induction l with
  | nil =>
    simp only [containsSub, List.isEmpty_iff]
    constructor
    · intro h
      exact ⟨[], [], by simp [h]⟩
    · intro hx
      obtain ⟨a, b, hab⟩ := hx
      cases a <;> cases pat <;> simp_all
  | cons c rest ih =>
    simp only [containsSub, Bool.or_eq_true, ih]
    constructor
    · intro hx
      rcases hx with h | h
      · obtain ⟨b, hb⟩ := List.isPrefixOf_iff_prefix.mp h
        exact ⟨[], b, by simp [hb]⟩
      · obtain ⟨a, b, hab⟩ := h
        exact ⟨c :: a, b, by simp [hab]⟩
    · intro hx
      obtain ⟨a, b, hab⟩ := hx
      cases a with
      | nil =>
        left
        rw [List.isPrefixOf_iff_prefix]
        exact ⟨b, by simpa using hab.symm⟩
      | cons a₀ a' =>
        right
        have h2 : c = a₀ ∧ rest = a' ++ (pat ++ b) := by simpa using hab
        exact ⟨a', b, h2.2⟩

theorem mkOrder_ok {oid st it : String} {o : Order}
    (h : mkOrder oid st it = .ok o) :
    o = { order_id := oid, status := st, item := it } ∧
      validStatus st = true := by
  unfold mkOrder at h
  split at h
  · exact ⟨(Except.ok.injEq .. ▸ h).symm, by assumption⟩
  · exact Except.noConfusion h

theorem mkOrder_of_valid {oid st it : String} (h : validStatus st = true) :
    mkOrder oid st it = .ok { order_id := oid, status := st, item := it } := by
  simp [mkOrder, h]

theorem loadAux_step (acc : List (String × Order)) (row : Row)
    (rest : List Row) :
    loadAux acc (row :: rest) =
      match rowFields row with
      | none => loadAux acc rest
      | some (a, b, c) =>
        match mkOrder a b c with
        | .error e => .error e
        | .ok o =>
          if (acc.lookup a).isSome then loadAux acc rest
          else loadAux (acc ++ [(a, o)]) rest := by
  cases ha : truthy row.order_id <;> cases hb : truthy row.status <;>
    cases hc : truthy row.item <;> simp [loadAux, rowFields, ha, hb, hc]

theorem loadAux_lookup (rows : List Row) :
    ∀ acc m oid, loadAux acc rows = .ok m →
      m.lookup oid = (acc.lookup oid).or
        ((firstRowFor rows oid).map
          fun p => ({ order_id := oid, status := p.1, item := p.2 } : Order)) := by
  induction rows with
  | nil =>
    intro acc m oid h
    simp only [loadAux, Except.ok.injEq] at h
    simp [← h, firstRowFor]
  | cons row rest ih =>
    intro acc m oid h
    rw [loadAux_step] at h
    cases hf : rowFields row with
    | none =>
      simp only [hf] at h
      simp only [firstRowFor, hf]
      exact ih acc m oid h
    | some abc =>
      obtain ⟨a, b, c⟩ := abc
      simp only [hf] at h
      cases hm : mkOrder a b c with
      | error e => simp only [hm] at h; exact Except.noConfusion h
      | ok o =>
        simp only [hm] at h
        obtain ⟨ho, hv⟩ := mkOrder_ok hm
        by_cases hacc : (acc.lookup a).isSome = true
        · rw [if_pos hacc] at h
          have := ih acc m oid h
          simp only [firstRowFor, hf]
          by_cases heq : a = oid
          · subst heq
            obtain ⟨x, hx⟩ := Option.isSome_iff_exists.mp hacc
            simp [hx] at this ⊢
            exact this
          · have : (a == oid) = false := by
              simp [beq_eq_false_iff_ne, heq]
            simp only [this, if_false]
            exact ih acc m oid h
        · rw [if_neg hacc] at h
          have hih := ih (acc ++ [(a, o)]) m oid h
          rw [List.lookup_append] at hih
          simp only [firstRowFor, hf]
          by_cases heq : a = oid
          · subst heq
            have hnone : acc.lookup a = none := by
              cases hl : acc.lookup a with
              | none => rfl
              | some x => rw [hl] at hacc; simp at hacc
            simp [hnone, ho] at hih ⊢
            exact hih
          · have hne : (a == oid) = false := by
              simp [beq_eq_false_iff_ne, heq]
            have hne2 : (oid == a) = false := by
              simp only [beq_eq_false_iff_ne, ne_eq]
              exact fun h' => heq h'.symm
            have hsing : ([(a, o)] : List (String × Order)).lookup oid = none := by
              simp [List.lookup_cons, hne2]
            rw [hsing, Option.or_none] at hih
            simp only [hne, if_false]
            exact hih

theorem loadAux_isOk (rows : List Row) :
    ∀ acc, (∀ row ∈ rows, rowOk row = true) →
      (loadAux acc rows).isOk = true := by
  induction rows with
  | nil => intro acc _; simp [loadAux, Except.isOk, Except.toBool]
  | cons row rest ih =>
    intro acc hv
    rw [loadAux_step]
    cases hf : rowFields row with
    | none =>
      simp only [hf]
      exact ih acc (fun r hr => hv r (by simp [hr]))
    | some abc =>
      obtain ⟨a, b, c⟩ := abc
      have hb : validStatus b = true := by
        have := hv row (by simp)
        simpa only [rowOk, hf] using this
      simp only [hf, mkOrder_of_valid hb]
      by_cases hacc : (acc.lookup a).isSome = true
      · rw [if_pos hacc]
        exact ih acc (fun r hr => hv r (by simp [hr]))
      · rw [if_neg hacc]
        exact ih _ (fun r hr => hv r (by simp [hr]))

theorem cancel_order_ORDERS (s : Store) (oid : String) :
    ((cancel_order s oid).2).ORDERS = s.ORDERS := by
  unfold cancel_order
  cases hg : get_order s oid with
  | none => rfl
  | some o =>
    by_cases h : (o.status == "shipped" || o.status == "canceled") = true <;>
      simp [h]

theorem applyOp_ORDERS (s : Store) (op : StoreOp) :
    (applyOp s op).ORDERS = s.ORDERS := by
  cases op with
  | getOp _ => rfl
  | cancelOp oid => exact cancel_order_ORDERS s oid

theorem runOps_ORDERS (ops : List StoreOp) :
    ∀ s, (runOps s ops).ORDERS = s.ORDERS := by
  induction ops with
  | nil => intro s; rfl
  | cons op ops ih =>
    intro s
    rw [runOps, ih, applyOp_ORDERS]

theorem cancel_order_cases (s : Store) (oid : String) :
    (get_order s oid = none ∧
      cancel_order s oid =
        ({ ok := false, reason := some "not_found", order := none }, s)) ∨
    (∃ o, get_order s oid = some o ∧
      (o.status = "shipped" ∨ o.status = "canceled") ∧
      cancel_order s oid =
        ({ ok := false, reason := some "immutable_status", order := some o }, s)) ∨
    (∃ o, get_order s oid = some o ∧
      o.status ≠ "shipped" ∧ o.status ≠ "canceled" ∧
      cancel_order s oid =
        ({ ok := true, reason := none,
           order := some { order_id := oid, status := "canceled",
                           item := o.item } },
         { s with OVERRIDES := dictInsert s.OVERRIDES oid "canceled" })) := by
  cases hg : get_order s oid with
  | none => exact Or.inl ⟨rfl, by simp [cancel_order, hg]⟩
  | some o =>
    by_cases h : (o.status == "shipped" || o.status == "canceled") = true
    · refine Or.inr (Or.inl ⟨o, rfl, ?_, by simp [cancel_order, hg, h]⟩)
      rcases Bool.or_eq_true _ _ ▸ h with h' | h'
      · exact Or.inl (by simpa using h')
      · exact Or.inr (by simpa using h')
    · have h' : o.status ≠ "shipped" ∧ o.status ≠ "canceled" := by
        constructor <;> intro hx <;> exact h (by simp [hx])
      exact Or.inr (Or.inr ⟨o, rfl, h'.1, h'.2,
        by simp [cancel_order, hg, h]⟩)

theorem cancel_order_fail_state {s : Store} {oid : String}
    (h : ((cancel_order s oid).1).ok = false) :
    (cancel_order s oid).2 = s := by
  rcases cancel_order_cases s oid with ⟨_, hc⟩ | ⟨o, _, _, hc⟩ | ⟨o, _, _, _, hc⟩
  · rw [hc]
  · rw [hc]
  · rw [hc] at h
    simp at h

theorem cancel_order_success_overrides {s : Store} {oid : String}
    (h : ((cancel_order s oid).1).ok = true) :
    ((cancel_order s oid).2).OVERRIDES = dictInsert s.OVERRIDES oid "canceled" := by
  rcases cancel_order_cases s oid with ⟨_, hc⟩ | ⟨o, _, _, hc⟩ | ⟨o, _, _, _, hc⟩ <;>
    rw [hc] at h ⊢ <;> simp at h ⊢

theorem get_order_override {s : Store} {oid : String} {b : Order}
    (hb : s.ORDERS.lookup oid = some b)
    (hv : s.OVERRIDES.lookup oid = some "canceled") :
    get_order s oid = some { order_id := oid, status := "canceled",
                             item := b.item } := by
  simp [get_order, hb, hv]

/-- One step never disturbs an override already set to `canceled`. -/
theorem override_persists_step (s : Store) (op : StoreOp) (oid : String)
    (h : s.OVERRIDES.lookup oid = some "canceled") :
    (applyOp s op).OVERRIDES.lookup oid = some "canceled" := by
  cases op with
  | getOp _ => exact h
  | cancelOp oid' =>
    show ((cancel_order s oid').2).OVERRIDES.lookup oid = some "canceled"
    rcases cancel_order_cases s oid' with ⟨_, hc⟩ | ⟨o, _, _, hc⟩ |
        ⟨o, _, _, _, hc⟩ <;> rw [hc]
    · exact h
    · exact h
    · by_cases he : oid' = oid
      · subst he
        simp [lookup_dictInsert_self]
      · rw [lookup_dictInsert_ne _ _ _ _ (fun hx => he hx.symm)]
        exact h

theorem override_persists_runOps (ops : List StoreOp) :
    ∀ s oid, s.OVERRIDES.lookup oid = some "canceled" →
      (runOps s ops).OVERRIDES.lookup oid = some "canceled" := by
  induction ops with
  | nil => intro s oid h; exact h
  | cons op ops ih =>
    intro s oid h
    exact ih _ oid (override_persists_step s op oid h)

/-- One step creates an override only through a successful cancel of that
very id, and the created value is `canceled`. -/
theorem override_created_step (s : Store) (op : StoreOp) (oid : String)
    (v : String) (h0 : s.OVERRIDES.lookup oid = none)
    (h1 : (applyOp s op).OVERRIDES.lookup oid = some v) :
    op = .cancelOp oid ∧ ((cancel_order s oid).1).ok = true ∧
      v = "canceled" := by
  cases op with
  | getOp oid' =>
    rw [show applyOp s (.getOp oid') = s from rfl, h0] at h1
    exact Option.noConfusion h1
  | cancelOp oid' =>
    have h1' : ((cancel_order s oid').2).OVERRIDES.lookup oid = some v := h1
    rcases cancel_order_cases s oid' with ⟨_, hc⟩ | ⟨o, _, _, hc⟩ |
        ⟨o, _, _, _, hc⟩
    · rw [hc, h0] at h1'
      exact Option.noConfusion h1'
    · rw [hc, h0] at h1'
      exact Option.noConfusion h1'
    · by_cases he : oid' = oid
      · subst he
        rw [hc] at h1'
        simp only [lookup_dictInsert_self, Option.some.injEq] at h1'
        exact ⟨rfl, by rw [hc], h1'.symm⟩
      · exfalso
        rw [hc] at h1'
        rw [show ({ s with OVERRIDES := dictInsert s.OVERRIDES oid' "canceled" } :
            Store).OVERRIDES = dictInsert s.OVERRIDES oid' "canceled" from rfl] at h1'
        rw [lookup_dictInsert_ne _ _ _ _ (fun hx => he hx.symm), h0] at h1'
        exact Option.noConfusion h1'

/-- One step preserves the all-overrides-are-canceled invariant. -/
theorem overridesCanceled_step (s : Store) (op : StoreOp)
    (h : OverridesCanceled s) : OverridesCanceled (applyOp s op) := by
  cases op with
  | getOp _ => exact h
  | cancelOp oid =>
    intro p hp
    have hp' : p ∈ ((cancel_order s oid).2).OVERRIDES := hp
    rcases cancel_order_cases s oid with ⟨_, hc⟩ | ⟨o, _, _, hc⟩ |
        ⟨o, _, _, _, hc⟩ <;> rw [hc] at hp'
    · exact h p hp'
    · exact h p hp'
    · rcases mem_dictInsert _ _ _ p hp' with h' | h'
      · rw [h']
      · exact h p h'

theorem overridesCanceled_runOps (ops : List StoreOp) :
    ∀ s, OverridesCanceled s → OverridesCanceled (runOps s ops) := by
  induction ops with
  | nil => intro s h; exact h
  | cons op ops ih => intro s h; exact ih _ (overridesCanceled_step s op h)

/-! ## Behaviour of the fallback decision procedure, case by case -/

theorem fallback_empty (st : TurnState) (h : st.messages = []) :
    fallback_chat_turn st =
      (.ok ({ role := "assistant",
              content := "Hello! What can I help you with?",
              tool_name := none }, none), st) := by
  simp [fallback_chat_turn, h]

theorem fallback_nonuser (st : TurnState) (last : Message)
    (h : st.messages.getLast? = some last) (hr : last.role ≠ "user") :
    fallback_chat_turn st =
      (.ok ({ role := "assistant", content := "Awaiting your instructions.",
              tool_name := none }, none), st) := by
  have hb : (last.role != "user") = true := by simp [bne_iff_ne, hr]
  simp [fallback_chat_turn, h, hb]

theorem fallback_noid (st : TurnState) (last : Message)
    (h : st.messages.getLast? = some last) (hr : last.role = "user")
    (he : extractOrderId (strToLower last.content) = none) :
    fallback_chat_turn st =
      (.ok ({ role := "assistant", content := "Please provide an order ID.",
              tool_name := none }, none), st) := by
  have hb : (last.role != "user") = false := by simp [hr]
  simp [fallback_chat_turn, h, hb, he]

theorem fallback_cancel_ok (st : TurnState) (last : Message) (id : String)
    (r : CancelOrderResult) (s' : Store)
    (h : st.messages.getLast? = some last) (hr : last.role = "user")
    (he : extractOrderId (strToLower last.content) = some id)
    (hc : containsSub (strToLower last.content).toList "cancel".toList = true)
    (hco : cancel_order st.store id = (r, s')) (hok : r.ok = true) :
    fallback_chat_turn st =
      (.ok ({ role := "assistant",
              content := "Order " ++ id ++ " has been canceled successfully.",
              tool_name := none }, some (.cancel r)),
       { st with store := s' }) := by
  have hb : (last.role != "user") = false := by simp [hr]
  simp at hc
  simp [fallback_chat_turn, h, hb, he, hc, cancel_order_tool, hco, hok]

theorem fallback_cancel_notfound (st : TurnState) (last : Message)
    (id : String) (r : CancelOrderResult) (s' : Store)
    (h : st.messages.getLast? = some last) (hr : last.role = "user")
    (he : extractOrderId (strToLower last.content) = some id)
    (hc : containsSub (strToLower last.content).toList "cancel".toList = true)
    (hco : cancel_order st.store id = (r, s')) (hok : r.ok = false)
    (hre : r.reason = some "not_found") :
    fallback_chat_turn st =
      (.ok ({ role := "assistant",
              content := "I couldn\x27t find an order with ID " ++ id ++ ".",
              tool_name := none }, some (.cancel r)),
       { st with store := s' }) := by
  have hb : (last.role != "user") = false := by simp [hr]
  simp at hc
  simp [fallback_chat_turn, h, hb, he, hc, cancel_order_tool, hco, hok, hre]

theorem fallback_cancel_immutable (st : TurnState) (last : Message)
    (id : String) (r : CancelOrderResult) (s' : Store) (o : Order)
    (h : st.messages.getLast? = some last) (hr : last.role = "user")
    (he : extractOrderId (strToLower last.content) = some id)
    (hc : containsSub (strToLower last.content).toList "cancel".toList = true)
    (hco : cancel_order st.store id = (r, s')) (hok : r.ok = false)
    (hre : r.reason ≠ some "not_found") (ho : r.order = some o) :
    fallback_chat_turn st =
      (.ok ({ role := "assistant",
              content := "Order " ++ id ++ " cannot be canceled because it is "
                ++ o.status ++ ".",
              tool_name := none }, some (.cancel r)),
       { st with store := s' }) := by
  have hb : (last.role != "user") = false := by simp [hr]
  have hre' : (r.reason == some "not_found") = false := by
    simp [beq_eq_false_iff_ne, hre]
  simp at hc
  simp [fallback_chat_turn, h, hb, he, hc, cancel_order_tool, hco, hok,
    hre', ho]

theorem fallback_find_found (st : TurnState) (last : Message) (id : String)
    (o : Order)
    (h : st.messages.getLast? = some last) (hr : last.role = "user")
    (he : extractOrderId (strToLower last.content) = some id)
    (hc : containsSub (strToLower last.content).toList "cancel".toList = false)
    (hg : get_order st.store id = some o) :
    fallback_chat_turn st =
      (.ok ({ role := "assistant",
              content := "Order " ++ id ++ " is currently " ++ o.status ++ ".",
              tool_name := none },
            some (.find { found := true, order := some o })), st) := by
  have hb : (last.role != "user") = false := by simp [hr]
  simp at hc
  simp [fallback_chat_turn, h, hb, he, hc, find_order_tool, hg]

theorem fallback_find_notfound (st : TurnState) (last : Message) (id : String)
    (h : st.messages.getLast? = some last) (hr : last.role = "user")
    (he : extractOrderId (strToLower last.content) = some id)
    (hc : containsSub (strToLower last.content).toList "cancel".toList = false)
    (hg : get_order st.store id = none) :
    fallback_chat_turn st =
      (.ok ({ role := "assistant",
              content := "I couldn\x27t find an order with ID " ++ id ++ ".",
              tool_name := none },
            some (.find { found := false, order := none })), st) := by
  have hb : (last.role != "user") = false := by simp [hr]
  simp at hc
  simp [fallback_chat_turn, h, hb, he, hc, find_order_tool, hg]

/-! ## Frame and shape helpers for the turn level -/

theorem fallback_messages (st : TurnState) :
    ((fallback_chat_turn st).2).messages = st.messages := by
  simp only [fallback_chat_turn]
  repeat' split <;> try rfl

theorem chat_turn_engine_messages (eng : Engine) (st : TurnState) :
    ((chat_turn_engine eng st).2).messages = st.messages := by
  simp only [chat_turn_engine]
  repeat' split <;> try rfl

theorem lookup_mem {l : List (String × α)} {k : String} {v : α}
    (h : l.lookup k = some v) : (k, v) ∈ l := by
  obtain ⟨l₁, l₂, rfl, _⟩ := List.lookup_eq_some_iff.mp h
  simp

theorem get_order_none_iff (s : Store) (oid : String) :
    get_order s oid = none ↔ s.ORDERS.lookup oid = none := by
  unfold get_order
  cases hb : s.ORDERS.lookup oid with
  | none => simp
  | some b => cases s.OVERRIDES.lookup oid <;> simp

theorem get_order_base_item {s : Store} {oid : String} {o b : Order}
    (hg : get_order s oid = some o) (hb : s.ORDERS.lookup oid = some b) :
    o.item = b.item := by
  unfold get_order at hg
  rw [hb] at hg
  cases hv : s.OVERRIDES.lookup oid <;> rw [hv] at hg <;>
    injection hg with hg <;> rw [← hg]

theorem get_order_some_base {s : Store} {oid : String} {o : Order}
    (hg : get_order s oid = some o) :
    ∃ b, s.ORDERS.lookup oid = some b := by
  unfold get_order at hg
  cases hb : s.ORDERS.lookup oid with
  | none => rw [hb] at hg; exact Option.noConfusion hg
  | some b => exact ⟨b, rfl⟩

theorem runOps_pure_gets (ops : List StoreOp)
    (h : ∀ op ∈ ops, ∃ i, op = .getOp i) :
    ∀ s, runOps s ops = s := by
  induction ops with
  | nil => intro s; rfl
  | cons op ops ih =>
    intro s
    obtain ⟨i, hi⟩ := h op (by simp)
    rw [runOps, hi]
    exact ih (fun op' hop' => h op' (by simp [hop'])) s

/-! ## The claims -/

/-- C10 (failure atomicity of cancellation): whenever `cancel_order`
returns `ok = false` (for either failure reason), the store is exactly as
before the call, so `get_order` on any id gives the same answer after the
failed call as before it. -/
theorem claim10_cancel_failure_atomic (s : Store) (oid : String)
    (h : ((cancel_order s oid).1).ok = false) :
    (cancel_order s oid).2 = s ∧
      ∀ oid', get_order ((cancel_order s oid).2) oid' = get_order s oid' := by
  have hs := cancel_order_fail_state h
  exact ⟨hs, fun oid' => by rw [hs]⟩

theorem claim10_witness :
    ((cancel_order demoStore "12345").1).ok = false ∧
    ((cancel_order demoStore "12345").2 = demoStore ∧
      ∀ oid', get_order ((cancel_order demoStore "12345").2) oid' =
        get_order demoStore oid') :=
  ⟨rfl, claim10_cancel_failure_atomic demoStore "12345" rfl⟩

/-- C8 (frame effect of the turn entry point): `chat_turn` returns all
input messages unchanged, in order, with nothing appended — the produced
assistant and tool messages are only returned to the caller, for any
engine configuration, any history, and any store. -/
theorem claim8_history_preserved (engine : Option Engine) (st : TurnState) :
    ((chat_turn engine st).2).messages = st.messages := by
  cases engine with
  | none => exact fallback_messages st
  | some eng => exact chat_turn_engine_messages eng st

/-- C1 (three-step cancel contract): over any well-formed store, for
every order id: absent effective order gives `ok=false/not_found/no order`
and writes nothing; effective status `shipped` or `canceled` gives
`ok=false/immutable_status` carrying the unchanged effective order and
writes nothing; effective status `processing` records a `canceled`
override and returns `ok=true`, no reason, and the base order with status
replaced by `canceled`. -/
theorem claim1_cancel_contract (s : Store) (oid : String) (hwf : WFStore s) :
    (get_order s oid = none →
      cancel_order s oid =
        ({ ok := false, reason := some "not_found", order := none }, s)) ∧
    (∀ o, get_order s oid = some o →
      (o.status = "shipped" ∨ o.status = "canceled") →
      cancel_order s oid =
        ({ ok := false, reason := some "immutable_status", order := some o }, s)) ∧
    (∀ o b, get_order s oid = some o → o.status = "processing" →
      s.ORDERS.lookup oid = some b →
      cancel_order s oid =
        ({ ok := true, reason := none,
           order := some { order_id := b.order_id, status := "canceled",
                           item := b.item } },
         { s with OVERRIDES := dictInsert s.OVERRIDES oid "canceled" })) := by
  refine ⟨?_, ?_, ?_⟩
  · intro hg
    simp [cancel_order, hg]
  · intro o hg hst
    have hb : (o.status == "shipped" || o.status == "canceled") = true := by
      rcases hst with h | h <;> simp [h]
    simp [cancel_order, hg, hb]
  · intro o b hg hst hbse
    have hb : (o.status == "shipped" || o.status == "canceled") = false := by
      simp [hst]
    have hid : b.order_id = oid := (hwf.1 (oid, b) (lookup_mem hbse)).1
    have hit : o.item = b.item := get_order_base_item hg hbse
    simp [cancel_order, hg, hb, hid, hit]

theorem claim1_witness :
    WFStore demoStore ∧
    cancel_order demoStore "23456" =
      ({ ok := true, reason := none,
         order := some { order_id := "23456", status := "canceled",
                         item := "gadget" } },
       { demoStore with
         OVERRIDES := dictInsert demoStore.OVERRIDES "23456" "canceled" }) := by
  have hwf : WFStore demoStore := by
    unfold WFStore
    refine ⟨?_, ?_⟩ <;> decide
  refine ⟨hwf, ?_⟩
  exact (claim1_cancel_contract demoStore "23456" hwf).2.2
    { order_id := "23456", status := "processing", item := "gadget" }
    { order_id := "23456", status := "processing", item := "gadget" }
    rfl rfl rfl

/-- C3 (get contract): over any well-formed store, `get_order` is
absent exactly when no base record exists; with an override it returns a
new order with the override status and the id and item of the base record;
without one it returns the base record unchanged; and repeated calls with
no intervening cancellation (any sequence of pure `get` operations)
return identical results. -/
theorem claim3_get_order_contract (s : Store) (oid : String) (hwf : WFStore s) :
    (get_order s oid = none ↔ s.ORDERS.lookup oid = none) ∧
    (∀ b v, s.ORDERS.lookup oid = some b → s.OVERRIDES.lookup oid = some v →
      get_order s oid = some { order_id := b.order_id, status := v,
                               item := b.item }) ∧
    (∀ b, s.ORDERS.lookup oid = some b → s.OVERRIDES.lookup oid = none →
      get_order s oid = some b) ∧
    (∀ ops : List StoreOp, (∀ op ∈ ops, ∃ i, op = .getOp i) →
      get_order (runOps s ops) oid = get_order s oid) := by
  refine ⟨get_order_none_iff s oid, ?_, ?_, ?_⟩
  · intro b v hb hv
    have hid : b.order_id = oid := (hwf.1 (oid, b) (lookup_mem hb)).1
    simp [get_order, hb, hv, hid]
  · intro b hb hv
    simp [get_order, hb, hv]
  · intro ops hops
    rw [runOps_pure_gets ops hops s]

theorem claim3_witness :
    WFStore ovStore ∧
    get_order ovStore "12345" =
      some { order_id := "12345", status := "canceled", item := "widget" } := by
  have hwf : WFStore ovStore := by
    unfold WFStore
    refine ⟨?_, ?_⟩ <;> decide
  refine ⟨hwf, ?_⟩
  exact (claim3_get_order_contract ovStore "12345" hwf).2.1
    { order_id := "12345", status := "shipped", item := "widget" }
    "canceled" rfl rfl

/-- C6, counterexample: a payload whose `order_id` field is present
but empty does *not* fail tool-input validation — both tools delegate to
the store (contradicting the claim that validation fails for every
payload without a non-empty `order_id`). -/
theorem claim6_counterexample :
    find_order_tool emptyStore [("order_id", "")] =
      .ok { found := false, order := none } ∧
    (cancel_order_tool emptyStore [("order_id", "")]).1 =
      .ok { ok := false, reason := some "not_found", order := none } :=
  ⟨rfl, rfl⟩

/-- C6, amended: each tool fails with an `InvalidToolInput` error
(raised as `ValueError`) if and only if the payload has no `order_id`
field at all; when the field is present — with any string value, the
empty string included — the tool delegates to the order store and wraps
the answer of the store in the tagged result type. -/
theorem claim6_amended_validation (s : Store) (args : ArgsDict) :
    ((∃ m, find_order_tool s args = .error (.valueError m)) ↔
      args.lookup "order_id" = none) ∧
    ((∃ m, (cancel_order_tool s args).1 = .error (.valueError m)) ↔
      args.lookup "order_id" = none) ∧
    (∀ oid, args.lookup "order_id" = some oid →
      find_order_tool s args =
        .ok { found := (get_order s oid).isSome, order := get_order s oid } ∧
      cancel_order_tool s args =
        (.ok (cancel_order s oid).1, (cancel_order s oid).2)) := by
  cases hl : args.lookup "order_id" with
  | none =>
    refine ⟨?_, ?_, ?_⟩
    · simp [find_order_tool, hl]
    · simp [cancel_order_tool, hl]
    · intro oid h
      exact Option.noConfusion h
  | some oid =>
    refine ⟨?_, ?_, ?_⟩
    · cases hg : get_order s oid <;> simp [find_order_tool, hl, hg]
    · rcases hco : cancel_order s oid with ⟨r, s'⟩
      simp [cancel_order_tool, hl, hco]
    · intro oid' h
      injection h with h
      subst h
      constructor
      · cases hg : get_order s oid <;> simp [find_order_tool, hl, hg]
      · rcases hco : cancel_order s oid with ⟨r, s'⟩
        simp [cancel_order_tool, hl, hco]

theorem claim6_witness :
    find_order_tool demoStore [("order_id", "99999")] =
      .ok { found := false, order := none } ∧
    cancel_order_tool demoStore [("order_id", "99999")] =
      (.ok { ok := false, reason := some "not_found", order := none },
       demoStore) :=
  (claim6_amended_validation demoStore [("order_id", "99999")]).2.2
    "99999" rfl

/-- C9, counterexample: a complete row whose status is not one of the
three admitted literals makes the loader raise a pydantic
`ValidationError` instead of being skipped. -/
theorem claim9_counterexample :
    load_orders [{ order_id := some "1", status := some "pending",
                   item := some "widget" }] = .error .validationError := rfl

/-- C9, amended: rows missing `order_id`, `status`, or `item` (or with
an empty value there) are skipped and the loader succeeds whenever every
complete row has an admitted status; the resulting store keeps, for each
id, the record of the first complete row with that id, ignoring later
duplicates.  (A complete row with a non-admitted status is *not* skipped:
it aborts the load with a validation error, per the counterexample.) -/
theorem claim9_amended_loader :
    (∀ rows : List Row, (∀ row ∈ rows, rowOk row = true) →
      (load_orders rows).isOk = true) ∧
    (∀ rows m oid, load_orders rows = .ok m →
      m.lookup oid = (firstRowFor rows oid).map
        (fun p => ({ order_id := oid, status := p.1, item := p.2 } : Order))) := by
  constructor
  · intro rows h
    exact loadAux_isOk rows [] h
  · intro rows m oid h
    have hx := loadAux_lookup rows [] m oid h
    simpa using hx

theorem claim9_witness :
    (load_orders demoRows).isOk = true ∧
    ([("1", ({ order_id := "1", status := "shipped", item := "x" } : Order))]
        : List (String × Order)).lookup "1" =
      (firstRowFor demoRows "1").map
        (fun p => ({ order_id := "1", status := p.1, item := p.2 } : Order)) :=
  ⟨claim9_amended_loader.1 demoRows (by decide),
   claim9_amended_loader.2 demoRows _ "1" rfl⟩

/-- C4 (override-layer invariant): the all-overrides-are-`canceled`
invariant is preserved by every store operation (and any sequence of
them); an override entry can only be created by a cancel operation on
that very id that returned `ok = true`, and its value is `canceled`; once
set, an override is never removed or changed by any operation; and after
one successful cancellation, every later `get_order` on that id reports
`canceled` and every later `cancel_order` returns
`ok = false, reason = immutable_status` carrying a `canceled` order. -/
theorem claim4_override_invariant :
    (∀ (s : Store) (op : StoreOp), OverridesCanceled s →
      OverridesCanceled (applyOp s op)) ∧
    (∀ (s : Store) (ops : List StoreOp), OverridesCanceled s →
      OverridesCanceled (runOps s ops)) ∧
    (∀ (s : Store) (op : StoreOp) (oid v : String),
      s.OVERRIDES.lookup oid = none →
      (applyOp s op).OVERRIDES.lookup oid = some v →
      op = .cancelOp oid ∧ ((cancel_order s oid).1).ok = true ∧
        v = "canceled") ∧
    (∀ (s : Store) (op : StoreOp) (oid : String),
      s.OVERRIDES.lookup oid = some "canceled" →
      (applyOp s op).OVERRIDES.lookup oid = some "canceled") ∧
    (∀ (s : Store) (oid : String) (r : CancelOrderResult) (s' : Store),
      cancel_order s oid = (r, s') → r.ok = true →
      ∀ ops : List StoreOp,
        (∃ o, get_order (runOps s' ops) oid = some o ∧
          o.status = "canceled") ∧
        ((cancel_order (runOps s' ops) oid).1).ok = false ∧
        ((cancel_order (runOps s' ops) oid).1).reason =
          some "immutable_status" ∧
        (∃ o, ((cancel_order (runOps s' ops) oid).1).order = some o ∧
          o.status = "canceled")) := by
  refine ⟨overridesCanceled_step, fun s ops h => overridesCanceled_runOps ops s h,
    override_created_step, override_persists_step, ?_⟩
  intro s oid r s' hco hok ops
  rcases cancel_order_cases s oid with ⟨hg, hc⟩ | ⟨o, hg, hst, hc⟩ |
      ⟨o, hg, h1, h2, hc⟩
  · rw [hco] at hc
    injection hc with hr hs
    rw [hr] at hok
    simp at hok
  · rw [hco] at hc
    injection hc with hr hs
    rw [hr] at hok
    simp at hok
  · rw [hco] at hc
    injection hc with hr hs
    obtain ⟨b, hb⟩ := get_order_some_base hg
    have htORD : (runOps s' ops).ORDERS.lookup oid = some b := by
      rw [runOps_ORDERS]
      rw [hs]
      exact hb
    have hov : s'.OVERRIDES.lookup oid = some "canceled" := by
      rw [hs]
      exact lookup_dictInsert_self s.OVERRIDES oid "canceled"
    have htOV : (runOps s' ops).OVERRIDES.lookup oid = some "canceled" :=
      override_persists_runOps ops s' oid hov
    have hget : get_order (runOps s' ops) oid =
        some { order_id := oid, status := "canceled", item := b.item } :=
      get_order_override htORD htOV
    refine ⟨⟨_, hget, rfl⟩, ?_, ?_, ?_⟩ <;> simp [cancel_order, hget]

theorem claim4_witness :
    (StoreOp.cancelOp "23456" = StoreOp.cancelOp "23456" ∧
      ((cancel_order demoStore "23456").1).ok = true ∧
      "canceled" = "canceled") ∧
    ((∃ o, get_order (runOps (cancel_order demoStore "23456").2
        [StoreOp.cancelOp "23456", StoreOp.getOp "12345"]) "23456" =
          some o ∧ o.status = "canceled") ∧
      ((cancel_order (runOps (cancel_order demoStore "23456").2
        [StoreOp.cancelOp "23456", StoreOp.getOp "12345"]) "23456").1).ok =
          false ∧
      ((cancel_order (runOps (cancel_order demoStore "23456").2
        [StoreOp.cancelOp "23456", StoreOp.getOp "12345"]) "23456").1).reason =
          some "immutable_status" ∧
      (∃ o, ((cancel_order (runOps (cancel_order demoStore "23456").2
        [StoreOp.cancelOp "23456", StoreOp.getOp "12345"]) "23456").1).order =
          some o ∧ o.status = "canceled")) :=
  ⟨claim4_override_invariant.2.2.1 demoStore (.cancelOp "23456") "23456"
      "canceled" rfl rfl,
   claim4_override_invariant.2.2.2.2 demoStore "23456"
      (cancel_order demoStore "23456").1 (cancel_order demoStore "23456").2
      rfl rfl [StoreOp.cancelOp "23456", StoreOp.getOp "12345"]⟩

/-- C7 (fallback safety): the fallback decision procedure never raises
for any conversation history and store — in particular the tool-input
validation error branches are unreachable from it; every extracted
candidate id is a non-empty string of digits; and whenever `cancel_order`
reports `immutable_status` the result carries an order value, so the
immutable-status reply never dereferences an absent order. -/
theorem claim7_fallback_total :
    (∀ st : TurnState, ((fallback_chat_turn st).1).isOk = true) ∧
    (∀ content id, extractOrderId content = some id →
      id ≠ "" ∧ ∀ c ∈ id.toList, c.isDigit = true) ∧
    (∀ (s : Store) (oid : String),
      ((cancel_order s oid).1).reason = some "immutable_status" →
      ((cancel_order s oid).1).order.isSome = true) := by
  refine ⟨?_, ?_, ?_⟩
  · intro st
    cases hml : st.messages.getLast? with
    | none =>
      have hm : st.messages = [] := by
        cases hmm : st.messages with
        | nil => rfl
        | cons a l =>
          rw [hmm] at hml
          simp at hml
      rw [fallback_empty st hm]
      rfl
    | some last =>
      by_cases hu : last.role = "user"
      · cases he : extractOrderId (strToLower last.content) with
        | none =>
          rw [fallback_noid st last hml hu he]
          rfl
        | some id =>
          by_cases hcs :
              containsSub (strToLower last.content).toList "cancel".toList = true
          · rcases cancel_order_cases st.store id with ⟨hg, hc⟩ |
                ⟨o, hg, hst, hc⟩ | ⟨o, hg, h1, h2, hc⟩
            · rw [fallback_cancel_notfound st last id _ _ hml hu he hcs hc
                rfl rfl]
              rfl
            · rw [fallback_cancel_immutable st last id _ _ o hml hu he hcs hc
                rfl (by simp) rfl]
              rfl
            · rw [fallback_cancel_ok st last id _ _ hml hu he hcs hc rfl]
              rfl
          · have hcs' :
                containsSub (strToLower last.content).toList "cancel".toList =
                  false := by
              simpa using hcs
            cases hg : get_order st.store id with
            | some o =>
              rw [fallback_find_found st last id o hml hu he hcs' hg]
              rfl
            | none =>
              rw [fallback_find_notfound st last id hml hu he hcs' hg]
              rfl
      · rw [fallback_nonuser st last hml hu]
        rfl
  · intro content id h
    obtain ⟨hne, hd⟩ := extractOrderId_digits content id h
    refine ⟨?_, hd⟩
    intro he
    apply hne
    rw [he]
    rfl
  · intro s oid hre
    rcases cancel_order_cases s oid with ⟨hg, hc⟩ | ⟨o, hg, hst, hc⟩ |
        ⟨o, hg, h1, h2, hc⟩ <;> rw [hc] at hre ⊢
    · have hre' : (some "not_found" : Option String) =
        some "immutable_status" := hre
      exact absurd hre' (by decide)
    · rfl
    · have hre' : (none : Option String) = some "immutable_status" := hre
      exact Option.noConfusion hre'

theorem claim7_witness :
    ((fallback_chat_turn cancelTurnState).1).isOk = true ∧
    ("23456" ≠ "" ∧ ∀ c ∈ ("23456" : String).toList, c.isDigit = true) ∧
    ((cancel_order demoStore "12345").1).order.isSome = true :=
  ⟨claim7_fallback_total.1 cancelTurnState,
   claim7_fallback_total.2.1 "please cancel order 23456" "23456" rfl,
   claim7_fallback_total.2.2 demoStore "12345" rfl⟩

/-- C5, counterexample: an engine response that requests `find_order`
with a well-formed JSON payload lacking `order_id` makes `chat_turn`
propagate the validation error (`ValueError`) to the caller instead of
recovering with an apology — the orchestrator only catches JSON *parse*
failures. -/
theorem claim5_counterexample :
    chat_turn (some engMissingField) emptyTurnState =
      (.error (.valueError "Invalid input for find_order"),
       emptyTurnState) := rfl

/-- C5, amended: in the engine-backed path, malformed argument JSON
(a parse failure) is recovered locally as a plain-text apology with no
tool result; but an argument payload that parses and then fails
tool-input validation (no `order_id` field) raises `ValueError`, which
`chat_turn` does not catch: the error propagates to the caller and the
turn produces no assistant message. -/
theorem claim5_amended_invalid_tool_input (eng : Engine) (st : TurnState) :
    (∀ fc, eng.first (openai_context st) = .functionCall fc →
      fc.arguments = .error () →
      chat_turn (some eng) st =
        (.ok ({ role := "assistant",
                content := "Sorry, I couldn\x27t parse the tool arguments.",
                tool_name := none }, none), st)) ∧
    (∀ fc d, eng.first (openai_context st) = .functionCall fc →
      fc.arguments = .ok d → d.lookup "order_id" = none →
      fc.name = "find_order" →
      chat_turn (some eng) st =
        (.error (.valueError "Invalid input for find_order"), st)) ∧
    (∀ fc d, eng.first (openai_context st) = .functionCall fc →
      fc.arguments = .ok d → d.lookup "order_id" = none →
      fc.name = "cancel_order" →
      chat_turn (some eng) st =
        (.error (.valueError "Invalid input for cancel_order"), st)) := by
  have hne : (("cancel_order" : String) == "find_order") = false := by decide
  refine ⟨?_, ?_, ?_⟩
  · intro fc h1 h2
    simp [chat_turn, chat_turn_engine, h1, h2]
  · intro fc d h1 h2 h3 h4
    simp [chat_turn, chat_turn_engine, h1, h2, h4, find_order_tool, h3]
  · intro fc d h1 h2 h3 h4
    simp [chat_turn, chat_turn_engine, h1, h2, h4, hne, cancel_order_tool, h3]

theorem claim5_witness :
    chat_turn (some engBadJson) emptyTurnState =
      (.ok ({ role := "assistant",
              content := "Sorry, I couldn\x27t parse the tool arguments.",
              tool_name := none }, none), emptyTurnState) :=
  (claim5_amended_invalid_tool_input engBadJson emptyTurnState).1
    { name := "cancel_order", arguments := .error () } rfl rfl

/-- C2 (fallback decision procedure): the candidate order id is
exactly the leftmost word-bounded run of digits of the (lower-cased)
content, and none exists exactly when the content has no such token; the
intent test is the literal substring test for `cancel`; an empty history
gives the greeting with no tool result; a last message whose role is not
`user` gives the awaiting-instructions reply with no tool result; no
candidate id gives the prompt-for-id reply with no tool result; on the
cancel path the procedure invokes `cancel_order` and composes the exact
success / not-found / immutable-status replies, always attaching the
structured result; on the lookup path it invokes `find_order` and
composes the exact found / not-found replies, always attaching the
structured result. -/
theorem claim2_fallback_decision_procedure :
    (∀ content id, extractOrderId content = some id ↔
      ∃ pre post, TokenSplit content pre id.toList post ∧
        ∀ pre' run' post', TokenSplit content pre' run' post' →
          pre.length ≤ pre'.length) ∧
    (∀ content, extractOrderId content = none ↔
      ∀ pre run post, ¬ TokenSplit content pre run post) ∧
    (∀ content : String, containsSub content.toList "cancel".toList = true ↔
      ∃ a b, content.toList = a ++ ("cancel".toList ++ b)) ∧
    (∀ st : TurnState, st.messages = [] →
      fallback_chat_turn st =
        (.ok ({ role := "assistant",
                content := "Hello! What can I help you with?",
                tool_name := none }, none), st)) ∧
    (∀ st last, st.messages.getLast? = some last → last.role ≠ "user" →
      fallback_chat_turn st =
        (.ok ({ role := "assistant", content := "Awaiting your instructions.",
                tool_name := none }, none), st)) ∧
    (∀ st last, st.messages.getLast? = some last → last.role = "user" →
      extractOrderId (strToLower last.content) = none →
      fallback_chat_turn st =
        (.ok ({ role := "assistant", content := "Please provide an order ID.",
                tool_name := none }, none), st)) ∧
    (∀ st last id r s', st.messages.getLast? = some last →
      last.role = "user" →
      extractOrderId (strToLower last.content) = some id →
      containsSub (strToLower last.content).toList "cancel".toList = true →
      cancel_order st.store id = (r, s') →
      (r.ok = true →
        fallback_chat_turn st =
          (.ok ({ role := "assistant",
                  content := "Order " ++ id ++
                    " has been canceled successfully.",
                  tool_name := none }, some (.cancel r)),
           { st with store := s' })) ∧
      (r.ok = false → r.reason = some "not_found" →
        fallback_chat_turn st =
          (.ok ({ role := "assistant",
                  content := "I couldn\x27t find an order with ID " ++
                    id ++ ".",
                  tool_name := none }, some (.cancel r)),
           { st with store := s' })) ∧
      (∀ o, r.ok = false → r.reason ≠ some "not_found" → r.order = some o →
        fallback_chat_turn st =
          (.ok ({ role := "assistant",
                  content := "Order " ++ id ++
                    " cannot be canceled because it is " ++ o.status ++ ".",
                  tool_name := none }, some (.cancel r)),
           { st with store := s' }))) ∧
    (∀ st last id, st.messages.getLast? = some last → last.role = "user" →
      extractOrderId (strToLower last.content) = some id →
      containsSub (strToLower last.content).toList "cancel".toList = false →
      (∀ o, get_order st.store id = some o →
        fallback_chat_turn st =
          (.ok ({ role := "assistant",
                  content := "Order " ++ id ++ " is currently " ++
                    o.status ++ ".",
                  tool_name := none },
                some (.find { found := true, order := some o })), st)) ∧
      (get_order st.store id = none →
        fallback_chat_turn st =
          (.ok ({ role := "assistant",
                  content := "I couldn\x27t find an order with ID " ++
                    id ++ ".",
                  tool_name := none },
                some (.find { found := false, order := none })), st))) := by
  refine ⟨extractOrderId_eq_some_iff, extractOrderId_eq_none_iff,
    fun content => containsSub_iff content.toList "cancel".toList,
    fallback_empty, fallback_nonuser, fallback_noid, ?_, ?_⟩
  · intro st last id r s' hml hu he hcs hco
    exact ⟨fun hok =>
        fallback_cancel_ok st last id r s' hml hu he hcs hco hok,
      fun hok hre =>
        fallback_cancel_notfound st last id r s' hml hu he hcs hco hok hre,
      fun o hok hre ho =>
        fallback_cancel_immutable st last id r s' o hml hu he hcs hco hok
          hre ho⟩
  · intro st last id hml hu he hcs
    exact ⟨fun o hg => fallback_find_found st last id o hml hu he hcs hg,
      fun hg => fallback_find_notfound st last id hml hu he hcs hg⟩

theorem claim2_witness :
    fallback_chat_turn cancelTurnState =
      (.ok ({ role := "assistant",
              content := "Order 23456 has been canceled successfully.",
              tool_name := none },
            some (.cancel
              { ok := true, reason := none,
                order := some { order_id := "23456", status := "canceled",
                                item := "gadget" } })),
       { cancelTurnState with
         store := { ORDERS := demoStore.ORDERS,
                    OVERRIDES := [("23456", "canceled")] } }) :=
  (claim2_fallback_decision_procedure.2.2.2.2.2.2.1
    cancelTurnState
    { role := "user", content := "Please cancel order 23456",
      tool_name := none }
    "23456"
    { ok := true, reason := none,
      order := some { order_id := "23456", status := "canceled",
                      item := "gadget" } }
    { ORDERS := demoStore.ORDERS, OVERRIDES := [("23456", "canceled")] }
    rfl rfl (by decide) (by decide) (by decide)).1 rfl
